import Mathlib

/-!
# Binary-tree membership and placement engine — verification

Shallow embedding of the tree membership core of the client-management
server (`server/storage.ts`, class `MemStorage`, together with the
relevant route handler of `server/routes.ts`).

Modelling conventions:
* The in-memory `Map<string, User>` is modelled as a `List User` in
  insertion order (a JavaScript `Map` iterates in insertion order, and
  every insertion uses a fresh key, hence appends).
* Opaque string identifiers (`randomUUID()`) and usernames are modelled
  as natural numbers; freshness of a new id is a hypothesis where needed.
* Fields of `User` that the tree logic never reads (name, email, mobile,
  password hash, package, createdAt) are omitted; the fields that drive
  placement and the modelled routes are kept: `id`, `username`, `role`,
  `parentId`, `position`.
* TypeScript `throw` is modelled by `Except.error`; the store passed in
  is returned unchanged exactly when the source throws before mutating,
  which is the case in all modelled code paths.
* Asynchronous calls in the source are sequential awaits on a single
  store; they are modelled as plain function calls.
-/

/-- `"left" | "right"` — the position of a child under its parent. -/
inductive Pos where
  | left
  | right
deriving DecidableEq, Repr

/-- `"admin" | "client"` — the role field of a user record. -/
inductive Role where
  | admin
  | client
deriving DecidableEq, Repr

/-- A stored user record (`users` table row), restricted to the fields the
tree membership logic reads. -/
structure User where
  id : Nat
  username : Nat
  role : Role
  parentId : Option Nat
  position : Option Pos
deriving DecidableEq, Repr

/-- The data of `CreateClientRequest` consumed by the placement logic. -/
structure CreateClientRequest where
  username : Nat
  parentId : Option Nat
  position : Option Pos
deriving DecidableEq, Repr

/-- `MemStorage.getClientsByParent`: all stored users whose `parentId`
equals the argument. -/
def getClientsByParent (store : List User) (parentId : Nat) : List User :=
  store.filter (fun u => decide (u.parentId = some parentId))

/-- `MemStorage.getAllClients`: all stored users whose role is `client`,
in insertion (creation) order. -/
def getAllClients (store : List User) : List User :=
  store.filter (fun u => decide (u.role = Role.client))

/-- `MemStorage.getUserById` (`users.get(id)`): lookup by id. -/
def getUserById (store : List User) (id : Nat) : Option User :=
  store.find? (fun u => decide (u.id = id))

/-- `MemStorage.getUserByUsername`: first stored user with the given
username. -/
def getUserByUsername (store : List User) (username : Nat) : Option User :=
  store.find? (fun u => decide (u.username = username))

/-- `MemStorage.getAvailablePositions`: collects the children of
`parentId`, drops the `null` positions (`.filter(Boolean)`), and returns
`["left", "right"]` minus the occupied ones. -/
def getAvailablePositions (store : List User) (parentId : Nat) : List Pos :=
  let children := getClientsByParent store parentId
  let occupiedPositions := children.filterMap (fun child => child.position)
  [Pos.left, Pos.right].filter (fun p => !(decide (p ∈ occupiedPositions)))

/-- `MemStorage.createClient`: resolves the parent (`client.parentId ||
createdById`), and if a parent is present, throws when it has no
available position, otherwise records `client.position ||
availablePositions[0]` — the explicit position, when supplied, is used
without an availability check. -/
def createClient (store : List User) (client : CreateClientRequest)
    (createdById : Option Nat) (newId : Nat) :
    Except String (List User × User) :=
  let parentId := client.parentId.or createdById
  match parentId with
  | none =>
    let user : User := ⟨newId, client.username, Role.client, none, none⟩
    .ok (store ++ [user], user)
  | some pid =>
    let availablePositions := getAvailablePositions store pid
    if availablePositions.isEmpty then
      .error "Parent already has 2 children"
    else
      let position : Option Pos :=
        match client.position with
        | some p => some p
        | none => availablePositions.head?
      let user : User := ⟨newId, client.username, Role.client, some pid, position⟩
      .ok (store ++ [user], user)

/-- `MemStorage.createClientWithPayment`: binary-tree insertion with
fallback. Resolves the parent (`client.parentId || adminId`); if it has
an available position, takes the first one; otherwise scans
`getAllClients()` in insertion order for the first client with a free
slot; otherwise falls back to `adminId` (position possibly `null` when
the admin is also full); otherwise keeps the original full parent with a
`null` position. The new user is always inserted. The request's explicit
`position` field is never consulted. -/
def createClientWithPayment (store : List User) (client : CreateClientRequest)
    (adminId : Option Nat) (newId : Nat) : List User × User :=
  let parentId0 := client.parentId.or adminId
  match parentId0 with
  | none =>
    let user : User := ⟨newId, client.username, Role.client, none, none⟩
    (store ++ [user], user)
  | some pid =>
    let availablePositions := getAvailablePositions store pid
    if availablePositions.isEmpty then
      match (getAllClients store).find?
          (fun c => !(getAvailablePositions store c.id).isEmpty) with
      | some potentialParent =>
        let user : User := ⟨newId, client.username, Role.client,
          some potentialParent.id,
          (getAvailablePositions store potentialParent.id).head?⟩
        (store ++ [user], user)
      | none =>
        match adminId with
        | some aid =>
          let user : User := ⟨newId, client.username, Role.client,
            some aid, (getAvailablePositions store aid).head?⟩
          (store ++ [user], user)
        | none =>
          let user : User := ⟨newId, client.username, Role.client,
            some pid, none⟩
          (store ++ [user], user)
    else
      let user : User := ⟨newId, client.username, Role.client,
        some pid, availablePositions.head?⟩
      (store ++ [user], user)

/-- Fuel-indexed version of the recursive traversal inside
`MemStorage.getClientDownline`: for each direct child, emit the child and
then its own downline. The fuel only bounds the recursion depth of the
embedding; the source recursion is unbounded and terminates exactly when
the parent relation is well-founded (invariant I4). -/
def downlineAux (store : List User) : Nat → Nat → List User
  | 0, _ => []
  | fuel + 1, clientId =>
    (getClientsByParent store clientId).flatMap
      (fun child => child :: downlineAux store fuel child.id)

/-- `MemStorage.getClientDownline`: the recursive pre-order traversal,
run with fuel `store.length`, which is shown sufficient under
acyclicity. -/
def getClientDownline (store : List User) (clientId : Nat) : List User :=
  downlineAux store store.length clientId

/-- The placement invariant (spec invariants I1/I2 restricted to
positioned children): every node has at most one child per position
value, so at most two positioned children and no duplicated position. -/
def PlacementInv (store : List User) : Prop :=
  ∀ (pid : Nat) (p : Pos),
    (getClientsByParent store pid).countP
      (fun u => decide (u.position = some p)) ≤ 1

/-- The transitive descendant relation induced by the `parentId` field:
`Desc store a x` holds when the store contains a node with id `x` whose
parent chain reaches `a`. -/
inductive Desc (store : List User) (a : Nat) : Nat → Prop where
  | child {u : User} : u ∈ store → u.parentId = some a → Desc store a u.id
  | step {b : Nat} {u : User} :
      Desc store a b → u ∈ store → u.parentId = some b → Desc store a u.id

/-- The `POST /api/clients/create-with-payment` handler
(`server/routes.ts`): requires payment confirmation, rejects duplicate
usernames, rejects a resolved parent id that matches no stored user
(`"Parent user not found"`), then calls `createClientWithPayment` with
`parentId` forced to `clientData.parentId || req.session.userId`. -/
def createWithPaymentRoute (store : List User) (paymentConfirmed : Bool)
    (clientData : CreateClientRequest) (sessionUserId : Nat) (newId : Nat) :
    Except String (List User × User) :=
  if paymentConfirmed = false then
    .error "Payment confirmation required"
  else if (getUserByUsername store clientData.username).isSome then
    .error "Username already exists"
  else
    match getUserById store (clientData.parentId.getD sessionUserId) with
    | none => .error "Parent user not found"
    | some _ =>
      let finalClientData :=
        { clientData with parentId := some (clientData.parentId.getD sessionUserId) }
      .ok (createClientWithPayment store finalClientData (some sessionUserId) newId)

/-! ## Basic lemmas about the tree queries -/

lemma mem_getClientsByParent {store : List User} {pid : Nat} {u : User} :
    u ∈ getClientsByParent store pid ↔ u ∈ store ∧ u.parentId = some pid := by
  simp [getClientsByParent, List.mem_filter]

lemma mem_getAvailablePositions {store : List User} {pid : Nat} {p : Pos} :
    p ∈ getAvailablePositions store pid ↔
      ∀ u ∈ store, u.parentId = some pid → u.position ≠ some p := by
  have hp : p ∈ [Pos.left, Pos.right] := by cases p <;> simp
  simp only [getAvailablePositions, List.mem_filter, hp, true_and,
    Bool.not_eq_true', decide_eq_false_iff_not, List.mem_filterMap,
    mem_getClientsByParent]
  constructor
  · intro h u hu hpar hpos
    exact h ⟨u, ⟨hu, hpar⟩, hpos⟩
  · rintro h ⟨u, ⟨hu, hpar⟩, hpos⟩
    exact h u hu hpar hpos

lemma getAvailablePositions_both_free {store : List User} {pid : Nat}
    (h : getClientsByParent store pid = []) :
    getAvailablePositions store pid = [Pos.left, Pos.right] := by
  simp [getAvailablePositions, h]

/-! ## C6 — characterization of `getAvailablePositions` -/

/-- C6: for every tree state and every `parentId`,
`getAvailablePositions` returns `{left, right}` minus the position
values of the nodes whose `parentId` equals the argument — the full set
when the parent has zero children, the empty set when both positions are
occupied. The operation is a pure function of the store (it returns no
modified store), so it has no side effects by construction. -/
theorem C6_availableSlots_characterization (store : List User) (pid : Nat) :
    (∀ p : Pos, p ∈ getAvailablePositions store pid ↔
      ∀ u ∈ store, u.parentId = some pid → u.position ≠ some p) ∧
    (getClientsByParent store pid = [] →
      getAvailablePositions store pid = [Pos.left, Pos.right]) ∧
    ((∃ u ∈ getClientsByParent store pid, u.position = some Pos.left) →
      (∃ u ∈ getClientsByParent store pid, u.position = some Pos.right) →
      getAvailablePositions store pid = []) := by
  refine ⟨fun p => mem_getAvailablePositions, getAvailablePositions_both_free, ?_⟩
  rintro ⟨ul, hul, hpl⟩ ⟨ur, hur, hpr⟩
  have hl := (mem_getClientsByParent.mp hul)
  have hr := (mem_getClientsByParent.mp hur)
  rw [List.eq_nil_iff_forall_not_mem]
  intro p hp
  have := mem_getAvailablePositions.mp hp
  cases p
  · exact this ul hl.1 hl.2 hpl
  · exact this ur hr.1 hr.2 hpr

/-- C6 witness: the characterization applied to a concrete store — an
admin `0` with a left child and a right child has no available slot
under id `0`, and the unused id `5` has both slots free. -/
theorem C6_availableSlots_characterization_witness :
    getAvailablePositions
      [⟨0, 100, Role.admin, none, none⟩,
       ⟨1, 101, Role.client, some 0, some Pos.left⟩,
       ⟨2, 102, Role.client, some 0, some Pos.right⟩] 0 = [] ∧
    getAvailablePositions
      [⟨0, 100, Role.admin, none, none⟩,
       ⟨1, 101, Role.client, some 0, some Pos.left⟩,
       ⟨2, 102, Role.client, some 0, some Pos.right⟩] 5 =
      [Pos.left, Pos.right] := by
  constructor
  · exact (C6_availableSlots_characterization _ 0).2.2
      ⟨⟨1, 101, Role.client, some 0, some Pos.left⟩, by decide, rfl⟩
      ⟨⟨2, 102, Role.client, some 0, some Pos.right⟩, by decide, rfl⟩
  · exact (C6_availableSlots_characterization _ 5).2.1 (by decide)

/-! ## C10 — null-position children are not counted as occupying a slot -/

/-- C10 counterexample: the claim also asserts that an id matching no
stored node reports both positions available — but children are selected
purely by `parentId` matching, so a dangling child (possible, since
`createClient` never validates the parent id) occupies a slot under an
id that matches no stored node: here id `99` matches no node, yet only
`right` is reported. -/
theorem C10_counterexample :
    getUserById
      [⟨0, 100, Role.admin, none, none⟩,
       ⟨1, 101, Role.client, some 99, some Pos.left⟩] 99 = none ∧
    getAvailablePositions
      [⟨0, 100, Role.admin, none, none⟩,
       ⟨1, 101, Role.client, some 99, some Pos.left⟩] 99 = [Pos.right] := by
  decide

/-- C10 amended: `getAvailablePositions` counts only children with a
non-null position — a parent whose children all have null position
reports both slots available regardless of how many children it has, an
id that no stored node references as parent reports both slots (in
particular an id matching no stored node and referenced by no dangling
child), and appending a child with a null position never changes the
result. -/
theorem C10_null_position_not_counted (store : List User) (pid : Nat) (u : User) :
    ((∀ c ∈ getClientsByParent store pid, c.position = none) →
      getAvailablePositions store pid = [Pos.left, Pos.right]) ∧
    ((∀ c ∈ store, c.parentId ≠ some pid) →
      getAvailablePositions store pid = [Pos.left, Pos.right]) ∧
    (u.parentId = some pid → u.position = none →
      getAvailablePositions (store ++ [u]) pid = getAvailablePositions store pid) := by
  refine ⟨?_, ?_, ?_⟩
  · intro hnull
    have hocc : (getClientsByParent store pid).filterMap
        (fun child => child.position) = [] := by
      rw [List.filterMap_eq_nil_iff]
      exact hnull
    simp [getAvailablePositions, hocc]
  · intro hnone
    have hchildren : getClientsByParent store pid = [] := by
      rw [List.eq_nil_iff_forall_not_mem]
      intro c hc
      have := mem_getClientsByParent.mp hc
      exact hnone c this.1 this.2
    exact getAvailablePositions_both_free hchildren
  · intro hpar hpos
    have hchildren : getClientsByParent (store ++ [u]) pid =
        getClientsByParent store pid ++ [u] := by
      simp [getClientsByParent, List.filter_append, hpar]
    simp [getAvailablePositions, hchildren, List.filterMap_append, hpos]

/-- C10 witness: a parent (`id 0`) with three stored children, all of
them position-null, still reports both slots available; appending yet
another null-position child under id `0` changes nothing. -/
theorem C10_null_position_not_counted_witness :
    getAvailablePositions
      [⟨0, 100, Role.admin, none, none⟩,
       ⟨1, 101, Role.client, some 0, none⟩,
       ⟨2, 102, Role.client, some 0, none⟩,
       ⟨3, 103, Role.client, some 0, none⟩] 0 = [Pos.left, Pos.right] ∧
    getAvailablePositions
      ([⟨0, 100, Role.admin, none, none⟩,
        ⟨1, 101, Role.client, some 0, none⟩,
        ⟨2, 102, Role.client, some 0, none⟩,
        ⟨3, 103, Role.client, some 0, none⟩] ++
       [⟨4, 104, Role.client, some 0, none⟩]) 0 =
      getAvailablePositions
        [⟨0, 100, Role.admin, none, none⟩,
         ⟨1, 101, Role.client, some 0, none⟩,
         ⟨2, 102, Role.client, some 0, none⟩,
         ⟨3, 103, Role.client, some 0, none⟩] 0 := by
  constructor
  · exact (C10_null_position_not_counted _ 0
      ⟨4, 104, Role.client, some 0, none⟩).1 (by decide)
  · exact (C10_null_position_not_counted _ 0
      ⟨4, 104, Role.client, some 0, none⟩).2.2 rfl rfl

/-! ## C5 — first-available-slot assignment, left before right -/

/-- C5: for every placement with no explicit requested position on a
parent with at least one free slot, both `createClient` and
`createClientWithPayment` assign the first available slot of the
resolved parent (`availablePositions[0]`, where the list is built in the
fixed order `[left, right]` minus occupied); in particular, when both
slots are free the assigned position is `left`. -/
theorem C5_left_precedence (store : List User) (client : CreateClientRequest)
    (anchor : Option Nat) (newId pid : Nat)
    (hnopos : client.position = none)
    (hpid : client.parentId.or anchor = some pid)
    (hfree : getAvailablePositions store pid ≠ []) :
    (createClientWithPayment store client anchor newId =
      (store ++ [⟨newId, client.username, Role.client, some pid,
        (getAvailablePositions store pid).head?⟩],
       ⟨newId, client.username, Role.client, some pid,
        (getAvailablePositions store pid).head?⟩)) ∧
    (createClient store client anchor newId =
      .ok (store ++ [⟨newId, client.username, Role.client, some pid,
        (getAvailablePositions store pid).head?⟩],
       ⟨newId, client.username, Role.client, some pid,
        (getAvailablePositions store pid).head?⟩)) ∧
    (getAvailablePositions store pid = [Pos.left, Pos.right] →
      (createClientWithPayment store client anchor newId).2.position =
        some Pos.left) := by
  have hempty : (getAvailablePositions store pid).isEmpty = false :=
    List.isEmpty_eq_false.mpr hfree
  refine ⟨?_, ?_, ?_⟩
  · simp [createClientWithPayment, hpid, hempty]
  · simp [createClient, hpid, hempty, hnopos]
  · intro hboth
    simp [createClientWithPayment, hpid, hempty, hboth]

/-- C5 witness: placing under an admin whose two slots are both free,
with no requested position, assigns `left` — in both operations. -/
theorem C5_left_precedence_witness :
    createClientWithPayment [⟨0, 100, Role.admin, none, none⟩]
        ⟨101, some 0, none⟩ none 1 =
      ([⟨0, 100, Role.admin, none, none⟩,
        ⟨1, 101, Role.client, some 0, some Pos.left⟩],
       ⟨1, 101, Role.client, some 0, some Pos.left⟩) ∧
    createClient [⟨0, 100, Role.admin, none, none⟩]
        ⟨101, some 0, none⟩ none 1 =
      .ok ([⟨0, 100, Role.admin, none, none⟩,
        ⟨1, 101, Role.client, some 0, some Pos.left⟩],
       ⟨1, 101, Role.client, some 0, some Pos.left⟩) := by
  have h := C5_left_precedence [⟨0, 100, Role.admin, none, none⟩]
    ⟨101, some 0, none⟩ none 1 0 rfl rfl (by decide)
  exact ⟨h.1.trans (by decide), h.2.1.trans (by rfl)⟩

/-! ## C2 — explicit requested position -/

/-- C2 counterexample: on an admin with both slots free,
`createClientWithPayment` with an explicit request for `right` assigns
`left` — the requested position is a member of the available-slot set
but is not assigned, refuting the claimed iff. -/
theorem C2_counterexample :
    Pos.right ∈ getAvailablePositions [⟨0, 100, Role.admin, none, none⟩] 0 ∧
    (createClientWithPayment [⟨0, 100, Role.admin, none, none⟩]
        ⟨101, some 0, some Pos.right⟩ (some 0) 1).2.position =
      some Pos.left := by
  decide

/-- C2 amended: `createClientWithPayment` never consults the request's
explicit position (its result is invariant under changing it), and
`createClient` assigns a supplied explicit position unconditionally
whenever the parent has at least one free slot — even when the requested
slot is occupied, in which case the occupied slot is assigned again. -/
theorem C2_explicit_position_behavior (store : List User)
    (client : CreateClientRequest) (anchor : Option Nat) (newId pid : Nat)
    (p : Pos) :
    (∀ q : Option Pos,
      createClientWithPayment store { client with position := q } anchor newId =
        createClientWithPayment store client anchor newId) ∧
    (client.parentId.or anchor = some pid →
      getAvailablePositions store pid ≠ [] →
      client.position = some p →
      createClient store client anchor newId =
        .ok (store ++ [⟨newId, client.username, Role.client, some pid, some p⟩],
          ⟨newId, client.username, Role.client, some pid, some p⟩)) := by
  constructor
  · intro q
    cases client
    rfl
  · intro hpid hfree hexp
    have hempty : (getAvailablePositions store pid).isEmpty = false :=
      List.isEmpty_eq_false.mpr hfree
    simp [createClient, hpid, hempty, hexp]

/-- C2 amended witness: requesting `left` under a parent whose `left`
slot is already occupied still assigns `left` (duplicating the slot),
and the payment flow produces the same result whether `right` was
requested or nothing was. -/
theorem C2_explicit_position_behavior_witness :
    createClient
        [⟨0, 100, Role.admin, none, none⟩,
         ⟨1, 101, Role.client, some 0, some Pos.left⟩]
        ⟨102, some 0, some Pos.left⟩ none 2 =
      .ok ([⟨0, 100, Role.admin, none, none⟩,
            ⟨1, 101, Role.client, some 0, some Pos.left⟩,
            ⟨2, 102, Role.client, some 0, some Pos.left⟩],
           ⟨2, 102, Role.client, some 0, some Pos.left⟩) ∧
    createClientWithPayment [⟨0, 100, Role.admin, none, none⟩]
        ⟨101, some 0, some Pos.right⟩ none 1 =
      createClientWithPayment [⟨0, 100, Role.admin, none, none⟩]
        ⟨101, some 0, none⟩ none 1 := by
  have h := C2_explicit_position_behavior
    [⟨0, 100, Role.admin, none, none⟩,
     ⟨1, 101, Role.client, some 0, some Pos.left⟩]
    ⟨102, some 0, some Pos.left⟩ none 2 0 Pos.left
  have h2 := C2_explicit_position_behavior [⟨0, 100, Role.admin, none, none⟩]
    ⟨101, some 0, none⟩ none 1 0 Pos.left
  exact ⟨h.2 rfl (by decide) rfl, h2.1 (some Pos.right)⟩

/-! ## C4 — fallback search takes the first candidate in creation order -/

lemma find?_append_first {α : Type} {l₁ l₂ : List α} {c : α} {p : α → Bool}
    (h₁ : ∀ x ∈ l₁, p x = false) (hc : p c = true) :
    (l₁ ++ c :: l₂).find? p = some c := by
  induction l₁ with
  | nil => simp [List.find?_cons, hc]
  | cons a t ih =>
    have ha := h₁ a (List.mem_cons_self a t)
    simp only [List.cons_append, List.find?_cons, ha]
    exact ih fun x hx => h₁ x (List.mem_cons_of_mem a hx)

/-- C4: when the resolved parent is full, `createClientWithPayment`
enumerates `getAllClients()` (the stored clients in insertion/creation
order) and places the new node under the first candidate whose
available-slot list is non-empty, at that candidate's first available
slot; in the spec's scenario (admin root `0`, full children `B`,`C`,
grandchildren `D`,`E`,`F`,`G` created in order and all slot-free) the new
node becomes `D`'s left child. -/
theorem C4_fallback_first_candidate (store : List User)
    (client : CreateClientRequest) (anchor : Option Nat) (newId pid : Nat)
    (cand : User) (l₁ l₂ : List User)
    (hpid : client.parentId.or anchor = some pid)
    (hfull : getAvailablePositions store pid = [])
    (hsplit : getAllClients store = l₁ ++ cand :: l₂)
    (hbefore : ∀ c ∈ l₁, getAvailablePositions store c.id = [])
    (hcand : getAvailablePositions store cand.id ≠ []) :
    (createClientWithPayment store client anchor newId =
      (store ++ [⟨newId, client.username, Role.client, some cand.id,
        (getAvailablePositions store cand.id).head?⟩],
       ⟨newId, client.username, Role.client, some cand.id,
        (getAvailablePositions store cand.id).head?⟩)) ∧
    createClientWithPayment
        [⟨0, 100, Role.admin, none, none⟩,
         ⟨1, 101, Role.client, some 0, some Pos.left⟩,
         ⟨2, 102, Role.client, some 0, some Pos.right⟩,
         ⟨3, 103, Role.client, some 1, some Pos.left⟩,
         ⟨4, 104, Role.client, some 1, some Pos.right⟩,
         ⟨5, 105, Role.client, some 2, some Pos.left⟩,
         ⟨6, 106, Role.client, some 2, some Pos.right⟩]
        ⟨107, some 0, none⟩ (some 0) 7 =
      ([⟨0, 100, Role.admin, none, none⟩,
        ⟨1, 101, Role.client, some 0, some Pos.left⟩,
        ⟨2, 102, Role.client, some 0, some Pos.right⟩,
        ⟨3, 103, Role.client, some 1, some Pos.left⟩,
        ⟨4, 104, Role.client, some 1, some Pos.right⟩,
        ⟨5, 105, Role.client, some 2, some Pos.left⟩,
        ⟨6, 106, Role.client, some 2, some Pos.right⟩,
        ⟨7, 107, Role.client, some 3, some Pos.left⟩],
       ⟨7, 107, Role.client, some 3, some Pos.left⟩) := by
  constructor
  · have hfind : (getAllClients store).find?
        (fun c => !(getAvailablePositions store c.id).isEmpty) = some cand := by
      rw [hsplit]
      apply find?_append_first
      · intro x hx
        simp [hbefore x hx]
      · simp [List.isEmpty_eq_false.mpr hcand]
    have hempty : (getAvailablePositions store pid).isEmpty = true := by
      rw [hfull] ; rfl
    simp [createClientWithPayment, hpid, hempty, hfind]
  · decide

/-- C4 witness: the general first-candidate statement applied to the
spec's scenario store, with the candidate prefix `[B, C]` fully
occupied and candidate `D` free, yields exactly the placement as `D`'s
left child. -/
theorem C4_fallback_first_candidate_witness :
    createClientWithPayment
        [⟨0, 100, Role.admin, none, none⟩,
         ⟨1, 101, Role.client, some 0, some Pos.left⟩,
         ⟨2, 102, Role.client, some 0, some Pos.right⟩,
         ⟨3, 103, Role.client, some 1, some Pos.left⟩,
         ⟨4, 104, Role.client, some 1, some Pos.right⟩,
         ⟨5, 105, Role.client, some 2, some Pos.left⟩,
         ⟨6, 106, Role.client, some 2, some Pos.right⟩]
        ⟨107, some 0, none⟩ (some 0) 7 =
      ([⟨0, 100, Role.admin, none, none⟩,
        ⟨1, 101, Role.client, some 0, some Pos.left⟩,
        ⟨2, 102, Role.client, some 0, some Pos.right⟩,
        ⟨3, 103, Role.client, some 1, some Pos.left⟩,
        ⟨4, 104, Role.client, some 1, some Pos.right⟩,
        ⟨5, 105, Role.client, some 2, some Pos.left⟩,
        ⟨6, 106, Role.client, some 2, some Pos.right⟩,
        ⟨7, 107, Role.client, some 3, some Pos.left⟩],
       ⟨7, 107, Role.client, some 3, some Pos.left⟩) := by
  have h := C4_fallback_first_candidate
    [⟨0, 100, Role.admin, none, none⟩,
     ⟨1, 101, Role.client, some 0, some Pos.left⟩,
     ⟨2, 102, Role.client, some 0, some Pos.right⟩,
     ⟨3, 103, Role.client, some 1, some Pos.left⟩,
     ⟨4, 104, Role.client, some 1, some Pos.right⟩,
     ⟨5, 105, Role.client, some 2, some Pos.left⟩,
     ⟨6, 106, Role.client, some 2, some Pos.right⟩]
    ⟨107, some 0, none⟩ (some 0) 7 0
    ⟨3, 103, Role.client, some 1, some Pos.left⟩
    [⟨1, 101, Role.client, some 0, some Pos.left⟩,
     ⟨2, 102, Role.client, some 0, some Pos.right⟩]
    [⟨4, 104, Role.client, some 1, some Pos.right⟩,
     ⟨5, 105, Role.client, some 2, some Pos.left⟩,
     ⟨6, 106, Role.client, some 2, some Pos.right⟩]
    rfl (by decide) (by decide) (by decide) (by decide)
  exact h.1.trans (by decide)

/-! ## C3 — saturated tree: no failure, silent null-position insertion -/

/-- C3 counterexample: a store in which the requested parent (admin `0`)
has both slots occupied, there are no client candidates at all
(`getAllClients` is empty, so every candidate is trivially full), and the
anchor — admin `0` itself — is full. The claim says the operation fails
and no node is inserted; instead `createClientWithPayment` succeeds and
appends a node with `parentId = 0` and a null position. -/
theorem C3_counterexample :
    getAvailablePositions
      [⟨0, 100, Role.admin, none, none⟩,
       ⟨1, 101, Role.admin, some 0, some Pos.left⟩,
       ⟨2, 102, Role.admin, some 0, some Pos.right⟩] 0 = [] ∧
    getAllClients
      [⟨0, 100, Role.admin, none, none⟩,
       ⟨1, 101, Role.admin, some 0, some Pos.left⟩,
       ⟨2, 102, Role.admin, some 0, some Pos.right⟩] = [] ∧
    createClientWithPayment
      [⟨0, 100, Role.admin, none, none⟩,
       ⟨1, 101, Role.admin, some 0, some Pos.left⟩,
       ⟨2, 102, Role.admin, some 0, some Pos.right⟩]
      ⟨103, some 0, none⟩ (some 0) 3 =
    ([⟨0, 100, Role.admin, none, none⟩,
      ⟨1, 101, Role.admin, some 0, some Pos.left⟩,
      ⟨2, 102, Role.admin, some 0, some Pos.right⟩,
      ⟨3, 103, Role.client, some 0, none⟩],
     ⟨3, 103, Role.client, some 0, none⟩) := by
  decide

/-- C3 amended: when the resolved parent is full, every existing client
candidate is full, and the admin anchor is also full,
`createClientWithPayment` does not fail and does not leave the store
unchanged: it inserts the new node under the anchor with a null
position (silent placement with a missing position). -/
theorem C3_tree_full_silent_insert (store : List User)
    (client : CreateClientRequest) (aid newId pid : Nat)
    (hpid : client.parentId.or (some aid) = some pid)
    (hfull : getAvailablePositions store pid = [])
    (hclients : ∀ c ∈ getAllClients store, getAvailablePositions store c.id = [])
    (hadmin : getAvailablePositions store aid = []) :
    createClientWithPayment store client (some aid) newId =
      (store ++ [⟨newId, client.username, Role.client, some aid, none⟩],
       ⟨newId, client.username, Role.client, some aid, none⟩) := by
  have hfind : (getAllClients store).find?
      (fun c => !(getAvailablePositions store c.id).isEmpty) = none := by
    rw [List.find?_eq_none]
    intro c hc
    simp [hclients c hc]
  have hempty : (getAvailablePositions store pid).isEmpty = true := by
    rw [hfull] ; rfl
  simp [createClientWithPayment, hpid, hempty, hfind, hadmin]

/-- C3 amended witness: the saturated store of the counterexample, with
the admin anchor `0`, yields exactly the silent null-position insertion
under the anchor. -/
theorem C3_tree_full_silent_insert_witness :
    createClientWithPayment
      [⟨0, 100, Role.admin, none, none⟩,
       ⟨1, 101, Role.admin, some 0, some Pos.left⟩,
       ⟨2, 102, Role.admin, some 0, some Pos.right⟩]
      ⟨104, none, none⟩ (some 0) 4 =
    ([⟨0, 100, Role.admin, none, none⟩,
      ⟨1, 101, Role.admin, some 0, some Pos.left⟩,
      ⟨2, 102, Role.admin, some 0, some Pos.right⟩,
      ⟨4, 104, Role.client, some 0, none⟩],
     ⟨4, 104, Role.client, some 0, none⟩) := by
  have h := C3_tree_full_silent_insert
    [⟨0, 100, Role.admin, none, none⟩,
     ⟨1, 101, Role.admin, some 0, some Pos.left⟩,
     ⟨2, 102, Role.admin, some 0, some Pos.right⟩]
    ⟨104, none, none⟩ 0 4 0 rfl (by decide) (by decide) (by decide)
  exact h.trans (by decide)

/-! ## C8 — atomicity of placement -/

lemma createClientWithPayment_fst (store : List User)
    (client : CreateClientRequest) (anchor : Option Nat) (newId : Nat) :
    (createClientWithPayment store client anchor newId).1 =
      store ++ [(createClientWithPayment store client anchor newId).2] := by
  rcases h : client.parentId.or anchor with _ | pid <;>
    simp only [createClientWithPayment, h]
  split
  · split
    · rfl
    · split <;> rfl
  · rfl

lemma createClient_ok {store : List User} {client : CreateClientRequest}
    {anchor : Option Nat} {newId : Nat} {s : List User} {u : User}
    (h : createClient store client anchor newId = .ok (s, u)) :
    s = store ++ [u] ∧
      ∀ pid, client.parentId.or anchor = some pid →
        u.parentId = some pid ∧ u.position ≠ none := by
  rcases hp : client.parentId.or anchor with _ | pid
  · simp only [createClient, hp, Except.ok.injEq, Prod.mk.injEq] at h
    obtain ⟨hs, hu⟩ := h
    subst hs hu
    exact ⟨rfl, by simp⟩
  · cases hemp : (getAvailablePositions store pid).isEmpty
    · rcases hcp : client.position with _ | p <;>
        · simp only [createClient, hp, hemp, Bool.false_eq_true, if_false,
            hcp, Except.ok.injEq, Prod.mk.injEq] at h
          obtain ⟨hs, hu⟩ := h
          subst hs hu
          refine ⟨rfl, fun pid2 hpid2 => ?_⟩
          rw [Option.some_inj] at hpid2
          subst hpid2
          refine ⟨rfl, ?_⟩
          simp [List.head?_eq_none_iff, List.isEmpty_eq_false.mp hemp]
    · simp [createClient, hp, hemp] at h

/-- C8 counterexample: with a full admin `0` (its two slots held by
admin-role children) and no admin anchor supplied,
`createClientWithPayment` neither leaves the store unchanged nor stores
a node with both `parentId` and `position` recorded: it appends a node
with `parentId = 0` and `position = null` — a partial-success state the
claim says cannot exist. -/
theorem C8_counterexample :
    ¬ ((createClientWithPayment
          [⟨0, 100, Role.admin, none, none⟩,
           ⟨1, 101, Role.admin, some 0, some Pos.left⟩,
           ⟨2, 102, Role.admin, some 0, some Pos.right⟩]
          ⟨103, some 0, none⟩ none 3).1 =
        [⟨0, 100, Role.admin, none, none⟩,
         ⟨1, 101, Role.admin, some 0, some Pos.left⟩,
         ⟨2, 102, Role.admin, some 0, some Pos.right⟩] ∨
      ((createClientWithPayment
          [⟨0, 100, Role.admin, none, none⟩,
           ⟨1, 101, Role.admin, some 0, some Pos.left⟩,
           ⟨2, 102, Role.admin, some 0, some Pos.right⟩]
          ⟨103, some 0, none⟩ none 3).2.parentId ≠ none ∧
       (createClientWithPayment
          [⟨0, 100, Role.admin, none, none⟩,
           ⟨1, 101, Role.admin, some 0, some Pos.left⟩,
           ⟨2, 102, Role.admin, some 0, some Pos.right⟩]
          ⟨103, some 0, none⟩ none 3).2.position ≠ none)) := by
  decide

/-- C8 amended: `createClient` is atomic — it either throws (before any
mutation; in this embedding the error branch returns no store) or
appends exactly the one new node, and on success with a resolved parent
both `parentId` and `position` are recorded; `createClientWithPayment`
always appends exactly one node and never fails, but its appended node
may carry a null position (see the saturated-tree case), so only the
exactly-one-append half holds for it. In particular, when `createClient`
rejects a full parent it produces exactly the error
`"Parent already has 2 children"` and no insertion. -/
theorem C8_placement_atomicity (store : List User)
    (client : CreateClientRequest) (anchor : Option Nat) (newId : Nat) :
    ((createClientWithPayment store client anchor newId).1 =
      store ++ [(createClientWithPayment store client anchor newId).2]) ∧
    (∀ pid, client.parentId.or anchor = some pid →
      getAvailablePositions store pid = [] →
      createClient store client anchor newId =
        .error "Parent already has 2 children") ∧
    (∀ s u, createClient store client anchor newId = .ok (s, u) →
      s = store ++ [u] ∧
      ∀ pid, client.parentId.or anchor = some pid →
        u.parentId = some pid ∧ u.position ≠ none) := by
  refine ⟨createClientWithPayment_fst store client anchor newId, ?_, ?_⟩
  · intro pid hpid hfull
    have hempty : (getAvailablePositions store pid).isEmpty = true := by
      rw [hfull] ; rfl
    simp [createClient, hpid, hempty]
  · intro s u h
    exact createClient_ok h

/-- C8 amended witness: on a concrete store, a full parent makes
`createClient` throw, and a successful `createClient` appends exactly
its returned node with parent and position recorded. -/
theorem C8_placement_atomicity_witness :
    createClient
        [⟨0, 100, Role.admin, none, none⟩,
         ⟨1, 101, Role.client, some 0, some Pos.left⟩,
         ⟨2, 102, Role.client, some 0, some Pos.right⟩]
        ⟨103, some 0, none⟩ none 3 =
      .error "Parent already has 2 children" := by
  have h := C8_placement_atomicity
    [⟨0, 100, Role.admin, none, none⟩,
     ⟨1, 101, Role.client, some 0, some Pos.left⟩,
     ⟨2, 102, Role.client, some 0, some Pos.right⟩]
    ⟨103, some 0, none⟩ none 3
  exact h.2.1 0 rfl (by decide)

/-! ## C7 — nonexistent parent id -/

/-- C7 counterexample: `createClient` performs no parent-existence
check. With a store holding only the admin (id `0`), a request naming
parent id `99` — which matches no stored node — succeeds and creates a
node whose `parentId` dangles (and, since the unknown id has no
children, both slots are reported free, so `left` is assigned). -/
theorem C7_counterexample :
    getUserById [⟨0, 100, Role.admin, none, none⟩] 99 = none ∧
    createClient [⟨0, 100, Role.admin, none, none⟩]
        ⟨101, some 99, none⟩ none 1 =
      .ok ([⟨0, 100, Role.admin, none, none⟩,
            ⟨1, 101, Role.client, some 99, some Pos.left⟩],
           ⟨1, 101, Role.client, some 99, some Pos.left⟩) := by
  exact ⟨rfl, rfl⟩

/-- C7 amended: the create-with-payment route rejects a resolved parent
id that matches no stored node with the error `"Parent user not found"`
and creates nothing (it never reaches the storage layer), but
`createClient` itself performs no such check: a request with an
unresolvable `parentId` succeeds and stores a node with a dangling
parent reference. -/
theorem C7_parent_not_found (store : List User)
    (clientData : CreateClientRequest) (sessionUserId newId pid : Nat) :
    ((getUserByUsername store clientData.username).isSome = false →
      getUserById store (clientData.parentId.getD sessionUserId) = none →
      createWithPaymentRoute store true clientData sessionUserId newId =
        .error "Parent user not found") ∧
    (clientData.parentId = some pid →
      getUserById store pid = none →
      clientData.position = none →
      getAvailablePositions store pid ≠ [] →
      createClient store clientData none newId =
        .ok (store ++ [⟨newId, clientData.username, Role.client, some pid,
              (getAvailablePositions store pid).head?⟩],
             ⟨newId, clientData.username, Role.client, some pid,
              (getAvailablePositions store pid).head?⟩)) := by
  constructor
  · intro huser hparent
    simp [createWithPaymentRoute, huser, hparent]
  · intro hpar _ hpos hfree
    have hempty : (getAvailablePositions store pid).isEmpty = false :=
      List.isEmpty_eq_false.mpr hfree
    have hor : clientData.parentId.or none = some pid := by
      rw [hpar] ; rfl
    simp [createClient, hor, hempty, hpos]

/-- C7 amended witness: the route, asked to place under the nonexistent
id `77`, answers `"Parent user not found"`; `createClient`, asked the
same, silently creates the dangling node. -/
theorem C7_parent_not_found_witness :
    createWithPaymentRoute [⟨0, 100, Role.admin, none, none⟩] true
        ⟨101, some 77, none⟩ 0 1 =
      .error "Parent user not found" ∧
    createClient [⟨0, 100, Role.admin, none, none⟩]
        ⟨101, some 77, none⟩ none 1 =
      .ok ([⟨0, 100, Role.admin, none, none⟩,
            ⟨1, 101, Role.client, some 77, some Pos.left⟩],
           ⟨1, 101, Role.client, some 77, some Pos.left⟩) := by
  have h := C7_parent_not_found [⟨0, 100, Role.admin, none, none⟩]
    ⟨101, some 77, none⟩ 0 1 77
  exact ⟨h.1 (by decide) (by decide),
    (h.2 rfl (by decide) rfl (by decide)).trans (by rfl)⟩

/-! ## C1 — capacity invariant -/

lemma countP_pos_zero_of_avail {store : List User} {pid : Nat} {p : Pos}
    (h : p ∈ getAvailablePositions store pid) :
    (getClientsByParent store pid).countP
      (fun u => decide (u.position = some p)) = 0 := by
  rw [List.countP_eq_zero]
  intro c hc
  have hmem := mem_getClientsByParent.mp hc
  have := mem_getAvailablePositions.mp h c hmem.1 hmem.2
  simpa using this

/-- Appending one node whose assigned position (when present) was free
under its assigned parent preserves the placement invariant. -/
lemma placementInv_append {store : List User} {u : User}
    (hinv : PlacementInv store)
    (hok : ∀ pid p, u.parentId = some pid → u.position = some p →
      p ∈ getAvailablePositions store pid) :
    PlacementInv (store ++ [u]) := by
  intro pid p
  have hch : getClientsByParent (store ++ [u]) pid =
      getClientsByParent store pid ++
        List.filter (fun v => decide (v.parentId = some pid)) [u] := by
    simp [getClientsByParent, List.filter_append]
  rw [hch, List.countP_append]
  by_cases hcnt : u.parentId = some pid ∧ u.position = some p
  · have h0 := countP_pos_zero_of_avail (hok pid p hcnt.1 hcnt.2)
    have h1 : (List.filter (fun v => decide (v.parentId = some pid)) [u]).countP
        (fun v => decide (v.position = some p)) ≤ 1 := by
      calc (List.filter (fun v => decide (v.parentId = some pid)) [u]).countP
            (fun v => decide (v.position = some p))
          ≤ (List.filter (fun v => decide (v.parentId = some pid)) [u]).length :=
            List.countP_le_length _
        _ ≤ [u].length := List.length_filter_le _ _
        _ = 1 := rfl
    omega
  · have h1 : (List.filter (fun v => decide (v.parentId = some pid)) [u]).countP
        (fun v => decide (v.position = some p)) = 0 := by
      rw [List.countP_eq_zero]
      intro a ha
      have hmem := List.mem_filter.mp ha
      have hau : a = u := by simpa using hmem.1
      subst hau
      have hpar : a.parentId = some pid := by simpa using hmem.2
      intro hposb
      exact hcnt ⟨hpar, by simpa using hposb⟩
    rw [h1]
    have := hinv pid p
    omega

/-- Every position actually assigned by `createClientWithPayment` was a
member of the assigned parent's available-slot list, computed on the
pre-insertion store. -/
lemma createClientWithPayment_assigned (store : List User)
    (client : CreateClientRequest) (anchor : Option Nat) (newId : Nat) :
    ∀ pid p,
      (createClientWithPayment store client anchor newId).2.parentId = some pid →
      (createClientWithPayment store client anchor newId).2.position = some p →
      p ∈ getAvailablePositions store pid := by
  intro pid p hpar hpos
  rcases h : client.parentId.or anchor with _ | pid0
  · simp [createClientWithPayment, h] at hpar
  · cases hemp : (getAvailablePositions store pid0).isEmpty
    · simp only [createClientWithPayment, h, hemp, Bool.false_eq_true,
        if_false] at hpar hpos
      rw [Option.some_inj] at hpar
      subst hpar
      exact List.mem_of_mem_head? (Option.mem_def.mpr hpos)
    · rcases hfind : (getAllClients store).find?
          (fun c => !(getAvailablePositions store c.id).isEmpty) with _ | cand
      · rcases hanc : anchor with _ | aid
        · subst hanc
          simp [createClientWithPayment, h, hemp, hfind] at hpos
        · subst hanc
          simp only [createClientWithPayment, h, hemp, if_true, hfind] at hpar hpos
          rw [Option.some_inj] at hpar
          subst hpar
          exact List.mem_of_mem_head? (Option.mem_def.mpr hpos)
      · simp only [createClientWithPayment, h, hemp, if_true, hfind] at hpar hpos
        rw [Option.some_inj] at hpar
        subst hpar
        exact List.mem_of_mem_head? (Option.mem_def.mpr hpos)

/-- C1 counterexample: starting from an admin `0` whose `left` slot is
taken, a successful `createClient` that explicitly requests `left`
yields a store in which node `0` has two children both at position
`left` — after a successful placement, two children of a node share a
position, refuting the claim. -/
theorem C1_counterexample :
    createClient
        [⟨0, 100, Role.admin, none, none⟩,
         ⟨1, 101, Role.client, some 0, some Pos.left⟩]
        ⟨102, some 0, some Pos.left⟩ none 2 =
      .ok ([⟨0, 100, Role.admin, none, none⟩,
            ⟨1, 101, Role.client, some 0, some Pos.left⟩,
            ⟨2, 102, Role.client, some 0, some Pos.left⟩],
           ⟨2, 102, Role.client, some 0, some Pos.left⟩) ∧
    (getClientsByParent
        [⟨0, 100, Role.admin, none, none⟩,
         ⟨1, 101, Role.client, some 0, some Pos.left⟩,
         ⟨2, 102, Role.client, some 0, some Pos.left⟩] 0).countP
      (fun u => decide (u.position = some Pos.left)) = 2 := by
  exact ⟨rfl, by decide⟩

/-- C1 amended: the per-position capacity invariant — at most one child
per position value under any node, hence at most two positioned children
and no duplicated position — is preserved by every successful
`createClientWithPayment`, and by every successful `createClient` whose
request carries no explicit position or whose explicit position is free
under the resolved parent. (Unrestricted `createClient` violates it, and
children with a null position are not bounded: see the counterexample
and C3.) -/
theorem C1_capacity_invariant (store : List User)
    (client : CreateClientRequest) (anchor : Option Nat) (newId : Nat)
    (hinv : PlacementInv store) :
    PlacementInv (createClientWithPayment store client anchor newId).1 ∧
    (∀ s u, createClient store client anchor newId = .ok (s, u) →
      (client.position = none ∨
        ∃ pid, client.parentId.or anchor = some pid ∧
          ∃ p, client.position = some p ∧
            p ∈ getAvailablePositions store pid) →
      PlacementInv s) := by
  constructor
  · rw [createClientWithPayment_fst]
    exact placementInv_append hinv
      (createClientWithPayment_assigned store client anchor newId)
  · intro s u h hcase
    rcases hp : client.parentId.or anchor with _ | pid
    · simp only [createClient, hp, Except.ok.injEq, Prod.mk.injEq] at h
      obtain ⟨hs, hu⟩ := h
      subst hs hu
      exact placementInv_append hinv (by intro pid p hpar; simp at hpar)
    · cases hemp : (getAvailablePositions store pid).isEmpty
      · simp only [createClient, hp, hemp, Bool.false_eq_true, if_false,
          Except.ok.injEq, Prod.mk.injEq] at h
        obtain ⟨hs, hu⟩ := h
        subst hs hu
        apply placementInv_append hinv
        intro pid2 p hpar hpos
        simp only [] at hpar
        rw [Option.some_inj] at hpar
        subst hpar
        rcases hcase with hnone | ⟨pid3, hpid3, p3, hcp3, hmem3⟩
        · rw [hnone] at hpos
          exact List.mem_of_mem_head? (Option.mem_def.mpr hpos)
        · rw [hp] at hpid3
          rw [Option.some_inj] at hpid3
          subst hpid3
          rw [hcp3] at hpos
          rw [Option.some_inj] at hpos
          subst hpos
          exact hmem3
      · simp [createClient, hp, hemp] at h

/-- C1 amended witness: inserting under the empty-slot admin of a
one-node store (which satisfies the invariant) preserves the invariant
through `createClientWithPayment`. -/
theorem C1_capacity_invariant_witness :
    PlacementInv (createClientWithPayment [⟨0, 100, Role.admin, none, none⟩]
      ⟨101, some 0, none⟩ none 1).1 :=
  (C1_capacity_invariant [⟨0, 100, Role.admin, none, none⟩]
    ⟨101, some 0, none⟩ none 1
    (fun pid p => by simp [getClientsByParent, List.filter])).1

/-! ## C9 — downline machinery -/

lemma getClientsByParent_eq_nil_of_rank_zero {store : List User}
    {rank : Nat → Nat}
    (hrank : ∀ u ∈ store, ∀ q, u.parentId = some q → rank u.id < rank q)
    {pid : Nat} (h : rank pid = 0) :
    getClientsByParent store pid = [] := by
  rw [List.eq_nil_iff_forall_not_mem]
  intro c hc
  have hcm := mem_getClientsByParent.mp hc
  have := hrank c hcm.1 pid hcm.2
  omega

lemma downlineAux_eq_nil_of_children_nil {store : List User} {pid : Nat}
    (h : getClientsByParent store pid = []) :
    ∀ f, downlineAux store f pid = [] := by
  intro f
  cases f with
  | zero => rfl
  | succ k => simp [downlineAux, h]

lemma downlineAux_stable {store : List User} {rank : Nat → Nat}
    (hrank : ∀ u ∈ store, ∀ q, u.parentId = some q → rank u.id < rank q) :
    ∀ (n : Nat) (pid f₁ f₂ : Nat), rank pid ≤ n → rank pid ≤ f₁ →
      rank pid ≤ f₂ → downlineAux store f₁ pid = downlineAux store f₂ pid := by
  intro n
  induction n with
  | zero =>
    intro pid f₁ f₂ hn _ _
    have h0 : rank pid = 0 := Nat.le_zero.mp hn
    have hcn := getClientsByParent_eq_nil_of_rank_zero hrank h0
    rw [downlineAux_eq_nil_of_children_nil hcn f₁,
      downlineAux_eq_nil_of_children_nil hcn f₂]
  | succ k ih =>
    intro pid f₁ f₂ hn h1 h2
    rcases f₁ with _ | a
    · have h0 : rank pid = 0 := Nat.le_zero.mp h1
      have hcn := getClientsByParent_eq_nil_of_rank_zero hrank h0
      rw [downlineAux_eq_nil_of_children_nil hcn 0,
        downlineAux_eq_nil_of_children_nil hcn f₂]
    · rcases f₂ with _ | b
      · have h0 : rank pid = 0 := Nat.le_zero.mp h2
        have hcn := getClientsByParent_eq_nil_of_rank_zero hrank h0
        rw [downlineAux_eq_nil_of_children_nil hcn (a + 1),
          downlineAux_eq_nil_of_children_nil hcn 0]
      · simp only [downlineAux]
        apply List.flatMap_congr
        intro c hc
        have hcm := mem_getClientsByParent.mp hc
        have hlt := hrank c hcm.1 pid hcm.2
        exact congrArg (c :: ·)
          (ih c.id a b (by omega) (by omega) (by omega))

lemma getClientDownline_fix {store : List User} {rank : Nat → Nat}
    (hrank : ∀ u ∈ store, ∀ q, u.parentId = some q → rank u.id < rank q)
    (hbound : ∀ x, rank x ≤ store.length) (pid : Nat) :
    getClientDownline store pid =
      (getClientsByParent store pid).flatMap
        (fun c => c :: getClientDownline store c.id) := by
  unfold getClientDownline
  rcases hl : store.length with _ | m
  · have hstore : store = [] := List.length_eq_zero.mp hl
    subst hstore
    rfl
  · simp only [downlineAux]
    apply List.flatMap_congr
    intro c hc
    have hcm := mem_getClientsByParent.mp hc
    have hlt := hrank c hcm.1 pid hcm.2
    have hb := hbound pid
    rw [hl] at hb
    exact congrArg (c :: ·)
      (downlineAux_stable hrank (rank c.id) c.id m (m + 1) le_rfl
        (by omega) (by omega))

lemma User.eq_of_id_eq {store : List User}
    (hids : (store.map User.id).Nodup) {u v : User}
    (hu : u ∈ store) (hv : v ∈ store) (h : u.id = v.id) : u = v :=
  List.inj_on_of_nodup_map hids hu hv h

lemma Desc.lift {store : List User} {c : User} {pid x : Nat}
    (h : Desc store c.id x) (hc : c ∈ store) (hp : c.parentId = some pid) :
    Desc store pid x := by
  induction h with
  | child hu hup => exact Desc.step (Desc.child hc hp) hu hup
  | step hb hu hup ih => exact Desc.step ih hu hup

lemma Desc.rank_lt {store : List User} {rank : Nat → Nat}
    (hrank : ∀ u ∈ store, ∀ q, u.parentId = some q → rank u.id < rank q)
    {a x : Nat} (h : Desc store a x) : rank x < rank a := by
  induction h with
  | child hu hup => exact hrank _ hu _ hup
  | step hb hu hup ih => exact lt_trans (hrank _ hu _ hup) ih

lemma Desc.exists_node {store : List User} {a x : Nat}
    (h : Desc store a x) : ∃ u ∈ store, u.id = x := by
  cases h with
  | child hu hup => exact ⟨_, hu, rfl⟩
  | step hb hu hup => exact ⟨_, hu, rfl⟩

lemma mem_downlineAux {store : List User} :
    ∀ {n pid : Nat} {u : User}, u ∈ downlineAux store n pid →
      u ∈ store ∧ Desc store pid u.id := by
  intro n
  induction n with
  | zero => intro pid u h; simp [downlineAux] at h
  | succ k ih =>
    intro pid u h
    simp only [downlineAux, List.mem_flatMap] at h
    obtain ⟨c, hc, hcu⟩ := h
    have hcm := mem_getClientsByParent.mp hc
    rcases List.mem_cons.mp hcu with rfl | htail
    · exact ⟨hcm.1, Desc.child hcm.1 hcm.2⟩
    · obtain ⟨hus, hdesc⟩ := ih htail
      exact ⟨hus, Desc.lift hdesc hcm.1 hcm.2⟩

lemma Desc.inv {store : List User} {a x : Nat} (h : Desc store a x) :
    ∃ u ∈ store, u.id = x ∧
      (u.parentId = some a ∨ ∃ b, Desc store a b ∧ u.parentId = some b) := by
  cases h with
  | child hu hup => exact ⟨_, hu, rfl, Or.inl hup⟩
  | step hb hu hup => exact ⟨_, hu, rfl, Or.inr ⟨_, hb, hup⟩⟩

lemma sibling_not_desc {store : List User} {rank : Nat → Nat}
    (hids : (store.map User.id).Nodup)
    (hrank : ∀ u ∈ store, ∀ q, u.parentId = some q → rank u.id < rank q)
    {pid : Nat} {c c' : User}
    (hc : c ∈ store) (hcp : c.parentId = some pid)
    (hc' : c' ∈ store) (hcp' : c'.parentId = some pid) :
    ¬ Desc store c'.id c.id := by
  intro hd
  obtain ⟨v, hv, hvid, hcase⟩ := Desc.inv hd
  have hvc : v = c := User.eq_of_id_eq hids hv hc hvid
  subst hvc
  rcases hcase with hvp | ⟨b, hb, hvp⟩
  · rw [hcp] at hvp
    rw [Option.some_inj] at hvp
    have h1 := hrank c' hc' pid hcp'
    rw [hvp] at h1
    omega
  · rw [hcp] at hvp
    rw [Option.some_inj] at hvp
    subst hvp
    have h1 := Desc.rank_lt hrank hb
    have h2 := hrank c' hc' pid hcp'
    omega

lemma Desc.comparable {store : List User}
    (hids : (store.map User.id).Nodup) {a x : Nat}
    (h1 : Desc store a x) :
    ∀ {b : Nat}, Desc store b x →
      a = b ∨ Desc store a b ∨ Desc store b a := by
  induction h1 with
  | child hu hup =>
    intro b h2
    obtain ⟨v, hv, hvid, hcase⟩ := Desc.inv h2
    have hvu : v = _ := User.eq_of_id_eq hids hv hu hvid
    subst hvu
    rcases hcase with hvp | ⟨m, hm, hvp⟩
    · rw [hup] at hvp
      exact Or.inl (Option.some_inj.mp hvp)
    · rw [hup] at hvp
      have ham := Option.some_inj.mp hvp
      subst ham
      exact Or.inr (Or.inr hm)
  | step hb hu hup ih =>
    intro b h2
    obtain ⟨v, hv, hvid, hcase⟩ := Desc.inv h2
    have hvu : v = _ := User.eq_of_id_eq hids hv hu hvid
    subst hvu
    rcases hcase with hvp | ⟨m2, hm2, hvp⟩
    · rw [hup] at hvp
      have hbm := Option.some_inj.mp hvp
      subst hbm
      exact Or.inr (Or.inl hb)
    · rw [hup] at hvp
      have hmm := Option.some_inj.mp hvp
      subst hmm
      exact ih hm2

lemma downline_subset {store : List User} {rank : Nat → Nat}
    (hrank : ∀ u ∈ store, ∀ q, u.parentId = some q → rank u.id < rank q)
    (hbound : ∀ x, rank x ≤ store.length) :
    ∀ (r pid : Nat) (w : User), rank pid ≤ r →
      w ∈ getClientDownline store pid →
      getClientDownline store w.id ⊆ getClientDownline store pid := by
  intro r
  induction r with
  | zero =>
    intro pid w hr hw
    have h0 : rank pid = 0 := Nat.le_zero.mp hr
    have hcn := getClientsByParent_eq_nil_of_rank_zero hrank h0
    rw [getClientDownline, downlineAux_eq_nil_of_children_nil hcn] at hw
    simp at hw
  | succ k ih =>
    intro pid w hr hw x hx
    rw [getClientDownline_fix hrank hbound] at hw
    obtain ⟨c, hc, hcw⟩ := List.mem_flatMap.mp hw
    have hcm := mem_getClientsByParent.mp hc
    have hclt := hrank c hcm.1 pid hcm.2
    rw [getClientDownline_fix hrank hbound]
    rcases List.mem_cons.mp hcw with heq | hwc
    · rw [heq] at hx
      exact List.mem_flatMap.mpr ⟨c, hc, List.mem_cons_of_mem _ hx⟩
    · have hsub := ih c.id w (by omega) hwc hx
      exact List.mem_flatMap.mpr ⟨c, hc, List.mem_cons_of_mem _ hsub⟩

lemma mem_downline_of_desc {store : List User} {rank : Nat → Nat}
    (hids : (store.map User.id).Nodup)
    (hrank : ∀ u ∈ store, ∀ q, u.parentId = some q → rank u.id < rank q)
    (hbound : ∀ x, rank x ≤ store.length)
    {root x : Nat} (h : Desc store root x) :
    ∀ u ∈ store, u.id = x → u ∈ getClientDownline store root := by
  induction h with
  | child hv hvp =>
    intro u hu hux
    have huv : u = _ := User.eq_of_id_eq hids hu hv hux
    rw [getClientDownline_fix hrank hbound]
    refine List.mem_flatMap.mpr ⟨u, ?_, List.mem_cons_self _ _⟩
    exact mem_getClientsByParent.mpr ⟨hu, by rw [huv]; exact hvp⟩
  | step hb hv hvp ih =>
    intro u hu hux
    have huv : u = _ := User.eq_of_id_eq hids hu hv hux
    obtain ⟨w, hw, hwid⟩ := Desc.exists_node hb
    have hwdl := ih w hw hwid
    have hu_child : u ∈ getClientsByParent store w.id :=
      mem_getClientsByParent.mpr ⟨hu, by rw [huv, hvp, hwid]⟩
    have hu_dl : u ∈ getClientDownline store w.id := by
      rw [getClientDownline_fix hrank hbound]
      exact List.mem_flatMap.mpr ⟨u, hu_child, List.mem_cons_self _ _⟩
    exact downline_subset hrank hbound (rank _) _ w le_rfl hwdl hu_dl

lemma downline_nodup {store : List User} {rank : Nat → Nat}
    (hids : (store.map User.id).Nodup)
    (hrank : ∀ u ∈ store, ∀ q, u.parentId = some q → rank u.id < rank q)
    (hbound : ∀ x, rank x ≤ store.length) :
    ∀ (r pid : Nat), rank pid ≤ r → (getClientDownline store pid).Nodup := by
  intro r
  induction r with
  | zero =>
    intro pid hr
    have h0 : rank pid = 0 := Nat.le_zero.mp hr
    have hcn := getClientsByParent_eq_nil_of_rank_zero hrank h0
    rw [getClientDownline, downlineAux_eq_nil_of_children_nil hcn]
    exact List.nodup_nil
  | succ k ih =>
    intro pid hr
    rw [getClientDownline_fix hrank hbound, List.nodup_flatMap]
    constructor
    · intro c hc
      have hcm := mem_getClientsByParent.mp hc
      have hclt := hrank c hcm.1 pid hcm.2
      rw [List.nodup_cons]
      constructor
      · intro hcd
        have hdesc := (mem_downlineAux hcd).2
        have := Desc.rank_lt hrank hdesc
        omega
      · exact ih c.id (by omega)
    · have hstore : store.Nodup := List.Nodup.of_map _ hids
      have hnd : (getClientsByParent store pid).Nodup :=
        List.Nodup.filter _ hstore
      refine List.Pairwise.imp_of_mem ?_ hnd
      intro c c' hcmem hcmem' hne x hxc hxc'
      have hcm := mem_getClientsByParent.mp hcmem
      have hcm' := mem_getClientsByParent.mp hcmem'
      rcases List.mem_cons.mp hxc with heq0 | hxd
      · rcases List.mem_cons.mp hxc' with heq | hxd'
        · exact hne (heq0.symm.trans heq)
        · have hdesc := (mem_downlineAux hxd').2
          rw [heq0] at hdesc
          exact sibling_not_desc hids hrank hcm.1 hcm.2 hcm'.1 hcm'.2 hdesc
      · rcases List.mem_cons.mp hxc' with heq | hxd'
        · have hdesc := (mem_downlineAux hxd).2
          rw [heq] at hdesc
          exact sibling_not_desc hids hrank hcm'.1 hcm'.2 hcm.1 hcm.2 hdesc
        · have hd1 := (mem_downlineAux hxd).2
          have hd2 := (mem_downlineAux hxd').2
          rcases Desc.comparable hids hd1 hd2 with heq | hdesc | hdesc
          · exact hne (User.eq_of_id_eq hids hcm.1 hcm'.1 heq)
          · exact sibling_not_desc hids hrank hcm'.1 hcm'.2 hcm.1 hcm.2 hdesc
          · exact sibling_not_desc hids hrank hcm.1 hcm.2 hcm'.1 hcm'.2 hdesc

/-- C9: on an acyclic store (acyclicity supplied, per invariant I4, as a
ranking function on ids that strictly decreases from parent to child and
is bounded by the store size — such a function exists exactly when every
parent chain is finite) with globally unique ids (I5),
`getClientDownline` returns exactly the transitive descendants of the
root (membership is equivalent to the `Desc` closure of the parent
relation), with no duplicates, and satisfies the pre-order unfolding:
the traversal is the concatenation, over the direct children in stored
order, of each child followed by that child's own downline. -/
theorem C9_downline_correct (store : List User) (root : Nat)
    (rank : Nat → Nat)
    (hids : (store.map User.id).Nodup)
    (hrank : ∀ u ∈ store, ∀ q, u.parentId = some q → rank u.id < rank q)
    (hbound : ∀ x, rank x ≤ store.length) :
    (∀ u, u ∈ getClientDownline store root ↔
      u ∈ store ∧ Desc store root u.id) ∧
    (getClientDownline store root).Nodup ∧
    getClientDownline store root =
      (getClientsByParent store root).flatMap
        (fun c => c :: getClientDownline store c.id) := by
  refine ⟨fun u => ⟨fun h => mem_downlineAux h,
      fun h => mem_downline_of_desc hids hrank hbound h.2 u h.1 rfl⟩,
    downline_nodup hids hrank hbound (rank root) root le_rfl,
    getClientDownline_fix hrank hbound root⟩

/-- C9 witness: a concrete three-node chain (admin `0` ← client `1` ←
client `3`) with an explicit rank function; the downline of the root is
duplicate-free. -/
theorem C9_downline_correct_witness :
    (getClientDownline
      [⟨0, 100, Role.admin, none, none⟩,
       ⟨1, 101, Role.client, some 0, some Pos.left⟩,
       ⟨3, 103, Role.client, some 1, some Pos.left⟩] 0).Nodup :=
  (C9_downline_correct
    [⟨0, 100, Role.admin, none, none⟩,
     ⟨1, 101, Role.client, some 0, some Pos.left⟩,
     ⟨3, 103, Role.client, some 1, some Pos.left⟩] 0
    (fun x => if x = 0 then 3 else if x = 1 then 2 else if x = 3 then 1 else 0)
    (by decide)
    (fun u hu q hq => by
      simp only [List.mem_cons, List.not_mem_nil, or_false] at hu
      rcases hu with rfl | rfl | rfl
      · exact absurd hq (by simp)
      · injection hq with h
        subst h
        decide
      · injection hq with h
        subst h
        decide)
    (fun x => by
      simp only []
      split_ifs <;> decide)).2.1
